import Mathlib

/-!
Verification of the drs-order-sync repository's core pipeline against its
natural-language specification.

The development shallowly embeds the relevant JavaScript source:
* `src/worker.js` — the Cloudflare-worker relay (`fetch` handler, `pickArray`,
  attempt construction);
* `src/unnamed/part_002` — the relay-path Airtable upserter (`flatten`, `pick`,
  the mapped-record construction, the blank filter, `findRecord` and the
  create/update loop);
* `src/drs-scrape.mjs` — the DOM scraper (`pick`/`pickIndex`, the mapped-record
  construction and blank filter, `extractTable`'s body-row construction and
  table selection);
* `src/unnamed/part_001` — the earlier scraper variant (its `extractTable`
  selection, which sorts by score only).

JavaScript values flowing through the relay are modelled by the inductive
`Json` (numbers as `Int`: no arithmetic is performed on them, only truthiness
and string coercion). JavaScript objects are modelled as association lists in
property-insertion order, which is how `Object.entries` / `Object.keys` /
`Object.values` iterate them. External I/O (upstream HTTP responses, the
Airtable store) is passed in explicitly: an upstream response carries the
result of `JSON.parse` on its body text as an `Option Json`, and the Airtable
table is a list of records in creation order, with `findRecord`'s
`filterByFormula` query modelled as exact field equality (the single-quote
escaping applied when building the formula round-trips through Airtable's
formula parser, so the query matches the raw order-number string).
-/

/-- A JavaScript/JSON value as handled by the relay and the upserter.
Numbers are modelled as `Int` (the pipeline only tests them for truthiness
and coerces them to strings). Objects are association lists in property
order. -/
inductive Json where
  | null
  | bool (b : Bool)
  | num (n : Int)
  | str (s : String)
  | arr (elems : List Json)
  | obj (fields : List (String × Json))

/-- JavaScript truthiness of a value: `null`, `false`, `0` and `""` are falsy;
every object and array (empty or not) is truthy. -/
def jsTruthy : Json → Bool
  | .null => false
  | .bool b => b
  | .num n => n != 0
  | .str s => s != ""
  | .arr _ => true
  | .obj _ => true

/-- Property lookup `o[k]` on an object's field list: the value of the first
(and in well-formed JavaScript objects, only) entry named `k`, or `none` when
the property is absent (JavaScript `undefined`). -/
def jsLookup (fields : List (String × Json)) (k : String) : Option Json :=
  (fields.find? (fun kv => kv.1 == k)).map (·.2)

mutual
/-- JavaScript `String(x)` coercion as the pipeline exercises it:
strings unchanged, numbers in decimal, `true`/`false`, `null` → `"null"`,
arrays comma-joined, plain objects → `"[object Object]"`. -/
def jsToString : Json → String
  | .null => "null"
  | .bool b => cond b "true" "false"
  | .num n => toString n
  | .str s => s
  | .arr xs => jsArrJoin xs
  | .obj _ => "[object Object]"

/-- Comma-joining of array elements for `Array.prototype.toString`; a `null`
element renders as the empty string inside an array. -/
def jsArrJoin : List Json → String
  | [] => ""
  | [.null] => ""
  | [x] => jsToString x
  | .null :: y :: rest => "," ++ jsArrJoin (y :: rest)
  | x :: y :: rest => jsToString x ++ "," ++ jsArrJoin (y :: rest)
end

/-- Characters treated as whitespace by the JavaScript regexp class `\s` and
by `String.prototype.trim`, restricted to the characters the scraped pages
contain. -/
def jsWs (c : Char) : Bool :=
  c == ' ' || c == '\t' || c == '\n' || c == '\r' || c == '\x0c' || c == '\x0b'

/-- Leading-and-trailing-whitespace removal on a character list. -/
def trimChars (cs : List Char) : List Char :=
  ((cs.dropWhile jsWs).reverse.dropWhile jsWs).reverse

/-- Model of `String.prototype.trim`. -/
def jsTrim (s : String) : String := String.mk (trimChars s.data)

/-- Model of `String.prototype.toLowerCase` (ASCII range, which is all the pipeline's
key material uses). -/
def jsLower (s : String) : String := String.mk (s.data.map Char.toLower)

/-- Splits a character list at whitespace, keeping the (possibly empty)
fragments between whitespace characters. -/
def wsSplit : List Char → List (List Char)
  | [] => [[]]
  | c :: cs =>
    if jsWs c then [] :: wsSplit cs
    else
      match wsSplit cs with
      | [] => [[c]]
      | w :: ws => (c :: w) :: ws

/-- The scrapers' cell cleaner `clean(s) = s.replace(/\s+/g, " ").trim()`:
every maximal whitespace run becomes one space and the ends are trimmed,
which is exactly joining the whitespace-free words with single spaces. -/
def clean (s : String) : String :=
  " ".intercalate (((wsSplit s.data).filter (· ≠ [])).map String.mk)

/-- Model of `s.replace(/^#/, "")` as applied to order numbers in
`src/unnamed/part_002`: removes a single leading `#` when present. -/
def stripHash (s : String) : String :=
  match s.data with
  | '#' :: rest => String.mk rest
  | _ => s

/-- Model of `s.replace(/\/+$/, "")`: removes every trailing slash, as `worker.js`
and the scrapers apply to the configured base URL. -/
def trimSlash (s : String) : String :=
  String.mk (s.data.reverse.dropWhile (· = '/')).reverse

/-!
### `src/worker.js` — the relay

`pickArray` (lines 132–152): return the root when it is an array; otherwise
try the nine named keys in order on a non-null object; otherwise a depth-first
walk over object/array values; otherwise `[]`. The walk's `seen` set only
matters for shared or cyclic references, which `JSON.parse` output (the only
input `pickArray` receives) never contains; on the tree-shaped `Json` model
the walk below is exactly the source's walk.
-/

/-- The named keys tried by `pickArray`, in source order. -/
def pickArrayKeys : List String :=
  ["orders", "order", "rows", "data", "results", "baskets", "basket", "list", "items"]

/-- The named-key loop of `pickArray` (worker.js lines 136–138): the value
of the first key in the list whose value on the object is an array. -/
def namedArrGo (fields : List (String × Json)) : List String → Option (List Json)
  | [] => none
  | k :: ks =>
    match jsLookup fields k with
    | some (.arr xs) => some xs
    | _ => namedArrGo fields ks

/-- The named-key phase of `pickArray`, over `pickArrayKeys`. -/
def namedArr (fields : List (String × Json)) : Option (List Json) :=
  namedArrGo fields pickArrayKeys

mutual
/-- The `walk` closure of `pickArray`: primitives yield nothing, an array
yields itself, an object yields the first array found among its values,
depth-first, left to right. -/
def walk : Json → Option (List Json)
  | .arr xs => some xs
  | .obj fields => walkFields fields
  | _ => none

/-- Depth-first search over an object's values (`Object.values` order). -/
def walkFields : List (String × Json) → Option (List Json)
  | [] => none
  | (_, v) :: rest =>
    match walk v with
    | some r => some r
    | none => walkFields rest
end

/-- Model of `pickArray` (worker.js lines 132–152). -/
def pickArray (root : Json) : List Json :=
  match root with
  | .arr xs => xs
  | .obj fields =>
    match namedArr fields with
    | some xs => xs
    | none => (walk (.obj fields)).getD []
  | other => (walk other).getD []

/-- One upstream attempt as built in the `fetch` handler: a URL and the
transport-mode tag passed to `postForm`/`postHeaders`/`getHeaders`. -/
structure Attempt where
  url : String
  mode : String
deriving DecidableEq

/-- The endpoint list (worker.js lines 24–27): the `order` path then the
`orders` path, each already ending in a slash. -/
def endpoints (base start endd : String) : List String :=
  [ base ++ "/api/read/order/" ++ start ++ "/" ++ endd ++ "/",
    base ++ "/api/read/orders/" ++ start ++ "/" ++ endd ++ "/" ]

/-- The attempt list (worker.js lines 29–34): per endpoint, form-encoded POST,
then header-based POST, then header-based GET. -/
def buildAttempts (base start endd : String) : List Attempt :=
  (endpoints base start endd).flatMap (fun u =>
    [⟨u, "post-form"⟩, ⟨u, "post-headers"⟩, ⟨u, "get-headers"⟩])

/-- One upstream HTTP response as the loop body observes it: `res.ok`,
`res.status`, the `content-type` header, the body text, and the result of
`JSON.parse` on that text (`none` models a parse failure, i.e. the `catch`
leaving `parsed === null`). -/
structure Resp where
  ok : Bool
  status : Nat
  ct : String
  text : String
  parsed : Option Json

/-- The diagnostic record accumulated across failed attempts
(worker.js lines 36, 53, 55). -/
structure Diag where
  status : Nat
  ct : String
  len : Nat
  head : String
  url : String
  mode : String
  keys : List String
deriving DecidableEq

/-- The initial diagnostic value (worker.js line 36). -/
def diag0 : Diag := ⟨0, "", 0, "", "", "", []⟩

/-- Model of `Object.keys(parsed)` when `parsed` is truthy and of object type, else
`[]` (worker.js line 44); on an array the keys are the decimal indices. -/
def respKeys (parsed : Option Json) : List String :=
  match parsed with
  | some (.obj fields) => fields.map (·.1)
  | some (.arr xs) => (List.range xs.length).map (fun i => toString i)
  | _ => []

/-- The diagnostic record one attempt produces (worker.js lines 53 and 55,
which assign the same value). -/
def mkDiag (att : Attempt) (r : Resp) : Diag :=
  ⟨r.status, jsLower r.ct, r.text.length, String.mk (r.text.data.take 500),
   att.url, att.mode, respKeys r.parsed⟩

/-- Outcome of the attempt loop: an accepted attempt's orders and mode, or
exhaustion with the last diagnostic value. -/
inductive LoopOut where
  | accepted (orders : List Json) (mode : String)
  | exhausted (diag : Diag)

/-- The attempt loop (worker.js lines 38–57) over the attempts paired with
the responses the upstream would give them, also counting how many upstream
calls were actually made. An attempt is accepted when `res.ok`, the parse
result is truthy, and the picked array is non-empty or debug mode is off. -/
def relayLoop (debug : Bool) (diag : Diag) : List (Attempt × Resp) → LoopOut × Nat
  | [] => (.exhausted diag, 0)
  | (att, r) :: rest =>
    let d := mkDiag att r
    match r.parsed with
    | some p =>
      if r.ok && jsTruthy p then
        let orders := pickArray p
        if orders.length > 0 || !debug then (.accepted orders att.mode, 1)
        else
          let (out, n) := relayLoop debug d rest
          (out, n + 1)
      else
        let (out, n) := relayLoop debug d rest
        (out, n + 1)
    | none =>
      let (out, n) := relayLoop debug d rest
      (out, n + 1)

/-- A diagnostic record rendered as the JSON the 502 body embeds. -/
def diagJson (d : Diag) : Json :=
  .obj [ ("status", .num d.status), ("ct", .str d.ct), ("len", .num d.len),
         ("head", .str d.head), ("url", .str d.url), ("mode", .str d.mode),
         ("keys", .arr (d.keys.map .str)) ]

/-- The relay's answer to one non-OPTIONS request: HTTP status, JSON body,
and the number of upstream calls made. -/
structure RelayOut where
  status : Nat
  body : Json
  consumed : Nat

/-- The `fetch` handler (worker.js lines 7–65) for a non-OPTIONS request,
after query-parameter resolution: `baseEnv`/`key`/`token` are the environment
values, `debug` the `debug=1` flag, `start`/`endd` the resolved date range,
and `resps` the responses the upstream would give the six attempts in order.
Configuration is checked first (500, no upstream call); otherwise the attempt
loop runs and the result is translated to the 200/502 bodies of lines 50,
61 and 64. -/
def relayFetch (baseEnv key token : String) (debug : Bool)
    (start endd : String) (resps : List Resp) : RelayOut :=
  let base := trimSlash baseEnv
  if base = "" || key = "" || token = "" then
    ⟨500, .obj [("error", .str "Worker missing DRS_BASE/DRS_DEV_KEY/DRS_API_TOKEN")], 0⟩
  else
    let attempts := buildAttempts base start endd
    match relayLoop debug diag0 (attempts.zip resps) with
    | (.accepted orders mode, n) =>
      ⟨200, .obj [("orders", .arr orders), ("source", .str mode)], n⟩
    | (.exhausted d, n) =>
      if debug then ⟨502, .obj [("orders", .arr []), ("diagnostics", diagJson d)], n⟩
      else ⟨200, .obj [("orders", .arr []), ("source", .str "no-array")], n⟩

/-!
### `src/unnamed/part_002` — relay-path field normalization and upsert

`flatten` (lines 101–108) descends into non-array objects, and stores every
other value (primitives and arrays alike) under the lowercased name of the
field that held it — the prefix passed down is the current key alone, not a
concatenated path, so the flat map is keyed by leaf field name. `pick`
(line 100) returns the first truthy value among the synonym keys. The mapped
record (lines 51–71) holds the picked JavaScript values, with the order
number coerced to a string and stripped of one leading `#`. The upsert loop
(lines 76–88) queries by (date, order number) and updates or creates.
-/

/-- JavaScript `out[k] = v` on an association-list object: an existing
property keeps its position and gets the new value, a new property is
appended. -/
def setKey (out : List (String × Json)) (k : String) (v : Json) :
    List (String × Json) :=
  if out.any (fun kv => kv.1 == k) then
    out.map (fun kv => if kv.1 == k then (k, v) else kv)
  else
    out ++ [(k, v)]

mutual
/-- Model of `flatten(obj, prefix, out)` (part_002 lines 101–108). Non-array objects
are descended into with each field's lowercased name as the new prefix;
every other value is stored under the lowercased prefix. -/
def flatten (j : Json) (pre : String) (out : List (String × Json)) :
    List (String × Json) :=
  match j with
  | .obj fields => flattenFields fields out
  | v => setKey out (jsLower pre) v

/-- The `Object.entries` iteration inside `flatten`, threading the shared `out`
object through the recursive calls in field order. -/
def flattenFields (fields : List (String × Json)) (out : List (String × Json)) :
    List (String × Json) :=
  match fields with
  | [] => out
  | (k, v) :: rest => flattenFields rest (flatten v (jsLower k) out)
end

/-- Model of `flatten(o)` as called at line 52: empty prefix, fresh output object. -/
def flattenTop (j : Json) : List (String × Json) := flatten j "" []

/-- Model of `pick(obj, keys)` (part_002 line 100): the first truthy value among the
listed keys, else the empty string. An absent property (`undefined`) is
falsy and skipped. -/
def pickJs (flat : List (String × Json)) : List String → Json
  | [] => .str ""
  | k :: ks =>
    match jsLookup flat k with
    | some v => if jsTruthy v then v else pickJs flat ks
    | none => pickJs flat ks

/-- A mapped relay-path record (part_002 lines 60–68), keyed by the
configured Airtable display names `F.*`; the date and order-number fields
are strings, the rest are the picked JavaScript values. -/
structure RelayRec where
  date : String
  customer : Json
  address : Json
  phone : Json
  size : Json
  orderNumber : String
  status : Json

/-- The mapped-record construction (part_002 lines 51–71) for one order
object, given the run's date string (the code renders `ymd(new Date(start))`;
the date string is taken as given here). The optional raw-JSON field is
disabled by default (`F.raw = ""`) and not modelled. -/
def relayMap (dateStr : String) (o : Json) : RelayRec :=
  let flat := flattenTop o
  let orderNo := pickJs flat ["order_id", "id", "order", "number", "tracking", "ticket_id", "invoice_id"]
  { date := dateStr
    customer := pickJs flat ["customer", "customer_name", "name", "client", "contactname"]
    address := pickJs flat ["delivery_address", "address", "location", "site_address"]
    phone := pickJs flat ["customer_phone", "phone", "contact_phone", "mobile"]
    size := pickJs flat ["dumpster_size", "size", "container_size", "bin_size"]
    orderNumber := stripHash (jsToString (if jsTruthy orderNo then orderNo else .str ""))
    status := pickJs flat ["status", "state", "order_status"] }

/-- The blank filter of the relay path (part_002 lines 72–73): keep a record
when its customer, address or order-number value is truthy. -/
def keepRelay (r : RelayRec) : Bool :=
  jsTruthy r.customer || jsTruthy r.address || r.orderNumber != ""

/-- The full relay-path normalization (part_002 lines 51–73): map every
fetched order, then drop the blanks. -/
def relayMapped (dateStr : String) (orders : List Json) : List RelayRec :=
  (orders.map (relayMap dateStr)).filter keepRelay

/-- The `filterByFormula` exact-equality query with `maxRecords=1` that
`findRecord` issues, against a store modelled as the list of records in
creation order: the position of the first record whose date and order-number
fields equal the arguments (its Airtable record id). -/
def findRecordIdx (store : List RelayRec) (dateVal orderNo : String) : Option Nat :=
  match store with
  | [] => none
  | r :: rest =>
    if r.date = dateVal && r.orderNumber = orderNo then some 0
    else (findRecordIdx rest dateVal orderNo).map (· + 1)

/-- Model of `findRecord(dateVal, orderNo)` (part_002 lines 111–118): an empty order
number returns `null` immediately, with no query issued against the store;
otherwise the (date, order-number) query runs. -/
def findRecord (store : List RelayRec) (dateVal orderNo : String) : Option Nat :=
  if orderNo = "" then none
  else findRecordIdx store dateVal orderNo

/-- One iteration of the upsert loop (part_002 lines 77–88): look up the
record's (date, order number); update the found record in place, or append a
new one. The returned flag is `true` for an update, `false` for a create. -/
def upsertStep (store : List RelayRec) (rec : RelayRec) : List RelayRec × Bool :=
  match findRecord store rec.date rec.orderNumber with
  | some i => (store.set i rec, true)
  | none => (store ++ [rec], false)

/-- Result of one reconciler run: the store plus the created/updated counts
the loop reports. -/
structure UpsertRun where
  store : List RelayRec
  created : Nat
  updated : Nat

/-- The upsert loop over a record sequence (part_002 lines 76–88),
processing the records in order against the threaded store and counting
updates and creates. -/
def runUpsert (store : List RelayRec) (recs : List RelayRec) : UpsertRun :=
  match recs with
  | [] => ⟨store, 0, 0⟩
  | rec :: rest =>
    match upsertStep store rec with
    | (s, true) =>
      let r := runUpsert s rest
      ⟨r.store, r.created, r.updated + 1⟩
    | (s, false) =>
      let r := runUpsert s rest
      ⟨r.store, r.created + 1, r.updated⟩

/-!
### `src/drs-scrape.mjs` — DOM-path field normalization and persistence

RawRows are association lists from column label to cleaned cell text. The
scraper's `pick` (line 203) requires a trim-non-blank value; `pickIndex`
(line 204) reads `col<idx>` under a 1-based index override (0 models an
unset override). The mapped record (lines 98–106) and the blank filter
(lines 108–111) follow; note the filter tests all six non-date fields.
-/

/-- A RawRow: column label to cell text, in column order. -/
abbrev RawRow : Type := List (String × String)

/-- RawRow lookup, `r[k]`: `none` is an absent column (`undefined`). -/
def rowGet (r : RawRow) (k : String) : Option String :=
  (List.find? (fun kv => kv.1 == k) r).map (·.2)

/-- Model of `pick(obj, keys)` (drs-scrape.mjs line 203): the first value that is
truthy and trim-non-blank, else the empty string. -/
def pickScrape (r : RawRow) : List String → String
  | [] => ""
  | k :: ks =>
    match rowGet r k with
    | some v => if v != "" && jsTrim v != "" then v else pickScrape r ks
    | none => pickScrape r ks

/-- Model of `pickIndex(row, idx)` (drs-scrape.mjs line 204): index 0 (no override)
yields `""`; otherwise read `col<idx>` and keep it only when trim-non-blank. -/
def pickIndex (r : RawRow) (idx : Nat) : String :=
  if idx = 0 then ""
  else
    match rowGet r ("col" ++ toString idx) with
    | some v => if v != "" && jsTrim v != "" then v else ""
    | none => ""

/-- The optional 1-based column-index overrides (`AT_COL_*`), 0 when unset. -/
structure IdxCfg where
  customer : Nat := 0
  address : Nat := 0
  phone : Nat := 0
  size : Nat := 0
  order : Nat := 0
  status : Nat := 0

/-- A mapped DOM-path record (drs-scrape.mjs lines 98–106), keyed by the
configured Airtable display names; every field is cell text. -/
structure ScrapeRec where
  date : String
  customer : String
  address : String
  phone : String
  size : String
  orderNumber : String
  status : String
deriving DecidableEq

/-- A picked value with its index-override fallback: `pick(...) ||
pickIndex(...)` — the fallback fires when `pick` returned the falsy `""`. -/
def pickOr (r : RawRow) (keys : List String) (idx : Nat) : String :=
  let v := pickScrape r keys
  if v = "" then pickIndex r idx else v

/-- The mapped-record construction (drs-scrape.mjs lines 98–106). -/
def scrapeMap (idx : IdxCfg) (targetDate : String) (r : RawRow) : ScrapeRec :=
  { date := targetDate
    customer := pickOr r ["Customer", "Name", "Client"] idx.customer
    address := pickOr r ["Address", "Delivery Address"] idx.address
    phone := pickOr r ["Phone", "Phone Number"] idx.phone
    size := pickOr r ["Dumpster Size", "Size"] idx.size
    orderNumber := pickOr r ["Order", "Order ID", "ID"] idx.order
    status := pickOr r ["Status"] idx.status }

/-- The blank filter of the DOM path (drs-scrape.mjs lines 108–111): keep a
record when any of the six non-date fields is non-blank after trimming. -/
def keepScrape (rec : ScrapeRec) : Bool :=
  [rec.customer, rec.address, rec.phone, rec.size, rec.orderNumber, rec.status].any
    (fun s => (jsTrim s).length > 0)

/-- The full DOM-path normalization (drs-scrape.mjs lines 98–111): map every
extracted row, then drop the blanks. What survives is handed to the
`table.create` batches (lines 118–125), i.e. persisted. -/
def scrapeMapped (idx : IdxCfg) (targetDate : String) (rows : List RawRow) :
    List ScrapeRec :=
  (rows.map (scrapeMap idx targetDate)).filter keepScrape

/-!
### `extractTable` — body rows and table selection

Body-row construction (drs-scrape.mjs lines 233–246) in the headerless case
(`ths = []`, which holds when the table has no `th` cells and the first
row's cells contain no schema keyword): the row's `td` texts are cleaned,
the blank cells are filtered out, an all-blank row is dropped, and the
surviving cells become `col1..colN` in order.

Selection: drs-scrape.mjs line 253 sorts the table packs with the comparator
`(b.score - a.score) || (b.rows.length - a.rows.length)` and takes the first
element; part_001 line 199 sorts with `b.score - a.score` only. JavaScript's
`Array.prototype.sort` is stable, so both are modelled by a stable insertion
sort parameterized by the comparator's strict order.
-/

/-- Body-row construction for a headerless table (drs-scrape.mjs lines
233–246 with `ths = []`): clean the cell texts, drop blanks, return `none`
for an all-blank row, else label the surviving cells `col1..colN`. -/
def bodyRow (tds : List String) : Option RawRow :=
  let cells := (tds.map clean).filter (· ≠ "")
  if cells.isEmpty then none
  else some (cells.enum.map (fun iv => ("col" ++ toString (iv.1 + 1), iv.2)))

/-- A scored table pack (drs-scrape.mjs lines 222–250): headers, keyword
score, and extracted body rows. -/
structure Pack where
  headers : List String
  score : Nat
  rows : List RawRow
deriving DecidableEq

/-- Stable insertion of `a` into an already-sorted list: `a` goes after
every element that strictly precedes it and before the rest, so elements
the comparator ties keep their original relative order, as JavaScript's
stable sort guarantees. -/
def stableInsert (lt : Pack → Pack → Bool) (a : Pack) : List Pack → List Pack
  | [] => [a]
  | b :: bs => if lt b a then b :: stableInsert lt a bs else a :: b :: bs

/-- Stable sort by the given strict order. -/
def stableSort (lt : Pack → Pack → Bool) : List Pack → List Pack
  | [] => []
  | p :: ps => stableInsert lt p (stableSort lt ps)

/-- The drs-scrape.mjs comparator as a strict order: `a` sorts strictly
before `b` when `(b.score - a.score) || (b.rows.length - a.rows.length)`
is negative, i.e. on higher score, or equal score and more rows. -/
def packLt (a b : Pack) : Bool :=
  a.score > b.score || (a.score == b.score && a.rows.length > b.rows.length)

/-- The part_001 comparator as a strict order: higher score only. -/
def packLt001 (a b : Pack) : Bool :=
  a.score > b.score

/-- The fallback pack `{headers: [], rows: []}` used when no table exists. -/
def emptyPack : Pack := ⟨[], 0, []⟩

/-- Table selection in drs-scrape.mjs (lines 253–254): sort by (score
descending, row-count descending) and take the first pack. -/
def bestPack (packs : List Pack) : Pack :=
  (stableSort packLt packs).headD emptyPack

/-- Table selection in part_001 (line 199): sort by score descending only
and take the first pack. -/
def bestPack001 (packs : List Pack) : Pack :=
  (stableSort packLt001 packs).headD emptyPack

/-- The array `xs` sits at the position of `j` itself or below `j` through
object fields — exactly the positions `pickArray`'s walk can reach (the walk
returns arrays and descends into object values, never into array elements). -/
inductive ArrReachable : List Json → Json → Prop where
  | here (xs : List Json) : ArrReachable xs (.arr xs)
  | inObj {xs : List Json} {fs : List (String × Json)} {kv : String × Json}
      (hm : kv ∈ fs) (h : ArrReachable xs kv.2) : ArrReachable xs (.obj fs)

/-- A relay record with an empty order number but a truthy customer, as the
emptiness filter lets through. -/
def recNoOrder : RelayRec :=
  ⟨"2025-01-15", .str "Jane Doe", .str "", .str "", .str "", "", .str ""⟩

/-- The RawRow of C5's example: `{"Customer": "Acme", "Order": "#42"}`. -/
def c5row : RawRow := [("Customer", "Acme"), ("Order", "#42")]

/-- The status-only scrape record of C2's example. -/
def doneScrapeRec : ScrapeRec := ⟨"2025-01-15", "", "", "", "", "", "Done"⟩

/-- A table pack with score 1 and one body row. -/
def packOneRow : Pack := ⟨["Size"], 1, [[("col1", "a")]]⟩

/-- A table pack with score 1 and two body rows. -/
def packTwoRows : Pack := ⟨["Size"], 1, [[("col1", "b")], [("col1", "c")]]⟩

/-- A pack with score 2 used by the C4 witness. -/
def packScoreTwo : Pack := ⟨["Customer", "Status"], 2, []⟩

/-- The acceptance condition of the attempt loop (worker.js lines 47–51),
per response: `res.ok`, a truthy `JSON.parse` result, and a non-empty picked
array unless debug mode is off. -/
def accepts (debug : Bool) (r : Resp) : Bool :=
  match r.parsed with
  | some p => r.ok && jsTruthy p && (decide ((pickArray p).length > 0) || !debug)
  | none => false

/-- Index of the first accepted response, the declarative counterpart of the
attempt loop. -/
def firstAcceptIdx (debug : Bool) : List Resp → Option Nat
  | [] => none
  | r :: rest =>
    if accepts debug r then some 0
    else (firstAcceptIdx debug rest).map (· + 1)

/-- An OK upstream response whose body parses to the empty object: valid
JSON, truthy, but `pickArray` yields the empty array. -/
def respOkEmptyObj : Resp := ⟨true, 200, "application/json", "\x7b\x7d", some (.obj [])⟩

/-- An OK upstream response bearing a non-empty `orders` array. -/
def respOkOrders : Resp :=
  ⟨true, 200, "application/json", "\x7b\x22orders\x22:[\x7b\x22id\x22:1\x7d]\x7d",
   some (.obj [("orders", .arr [.obj [("id", .num 1)]])])⟩

/-- A failing upstream response. -/
def respFail : Resp := ⟨false, 500, "text/html", "err", none⟩

/-- Is a value a plain (non-array) object — the only kind `flatten` descends
into and never stores? -/
def isPlainObj : Json → Bool
  | .obj _ => true
  | _ => false

/-- The store contains a record carrying the given (date, order-number)
pair — the duplicate-detection key of the reconciler. -/
def hasPair (store : List RelayRec) (d o : String) : Prop :=
  ∃ r ∈ store, r.date = d ∧ r.orderNumber = o

/-- The canonical record of the spec's end-to-end example, order number 7. -/
def rec7 : RelayRec :=
  ⟨"2025-01-15", .str "Jane Doe", .str "1 Main St", .str "", .str "", "7", .str ""⟩

/-!
## Theorems

One theorem (plus witness/counterexample where required) per claim of the
specification, with shared helper lemmas in between.
-/

/-- A successful property lookup comes from an entry of the field list. -/
theorem jsLookup_mem {fields : List (String × Json)} {k : String} {v : Json}
    (h : jsLookup fields k = some v) : (k, v) ∈ fields := by
  unfold jsLookup at h
  cases hf : fields.find? (fun kv => kv.1 == k) with
  | none => rw [hf] at h; simp at h
  | some kv0 =>
    rw [hf] at h
    simp only [Option.map_some'] at h
    have hmem := List.mem_of_find?_eq_some hf
    have hp := List.find?_some hf
    obtain ⟨k0, v0⟩ := kv0
    simp only [beq_iff_eq] at hp
    cases h
    cases hp
    exact hmem

/-- A hit of the named-key loop is the value of one of the object's fields. -/
theorem namedArrGo_occurs {fields : List (String × Json)} :
    ∀ {ks : List String} {xs : List Json}, namedArrGo fields ks = some xs →
      ∃ k, jsLookup fields k = some (.arr xs)
  | [], _, h => by simp [namedArrGo] at h
  | k :: ks, xs, h => by
    rw [namedArrGo] at h
    cases hl : jsLookup fields k with
    | none => rw [hl] at h; exact namedArrGo_occurs h
    | some v =>
      cases v with
      | arr ys =>
        rw [hl] at h
        cases h
        exact ⟨k, hl⟩
      | null => rw [hl] at h; exact namedArrGo_occurs h
      | bool b => rw [hl] at h; exact namedArrGo_occurs h
      | num n => rw [hl] at h; exact namedArrGo_occurs h
      | str s => rw [hl] at h; exact namedArrGo_occurs h
      | obj fs => rw [hl] at h; exact namedArrGo_occurs h

mutual
/-- What the walk returns really does sit in the walked value. -/
theorem walk_occurs : ∀ (j : Json) (xs : List Json), walk j = some xs → ArrReachable xs j
  | .null, _, h => by simp [walk] at h
  | .bool _, _, h => by simp [walk] at h
  | .num _, _, h => by simp [walk] at h
  | .str _, _, h => by simp [walk] at h
  | .arr ys, xs, h => by
    rw [walk] at h
    cases h
    exact ArrReachable.here ys
  | .obj fs, xs, h => by
    have h2 : walkFields fs = some xs := by rw [walk] at h; exact h
    obtain ⟨kv, hm, ho⟩ := walkFields_occurs fs xs h2
    exact ArrReachable.inObj hm ho

/-- What the field walk returns sits in one of the fields' values. -/
theorem walkFields_occurs : ∀ (fs : List (String × Json)) (xs : List Json),
    walkFields fs = some xs → ∃ kv ∈ fs, ArrReachable xs kv.2
  | [], _, h => by simp [walkFields] at h
  | (k, v) :: rest, xs, h => by
    rw [walkFields] at h
    cases hw : walk v with
    | some r =>
      rw [hw] at h
      cases h
      exact ⟨(k, v), List.mem_cons_self _ _, walk_occurs v xs hw⟩
    | none =>
      rw [hw] at h
      obtain ⟨kv, hm, ho⟩ := walkFields_occurs rest xs h
      exact ⟨kv, List.mem_cons_of_mem _ hm, ho⟩
end

/-- C10. `pickArray` is total and array-valued: the root itself when the root
is an array; otherwise the value of the first named key among
`{orders, order, rows, data, results, baskets, basket, list, items}` holding
an array; otherwise the first array found by the depth-first walk; otherwise
`[]`. Every non-empty result is an array actually reachable in the input
(root or below object fields), the named-key phase takes priority over the
walk and follows the key-list order rather than the object's field order,
and primitives and array-free values yield `[]`. (The `seen` set of the
source only affects shared or cyclic references, which `JSON.parse` output —
`pickArray`'s only input — cannot contain, so the tree model is exact.) -/
theorem C10_pickArray_total_and_array_valued :
    (∀ xs : List Json, pickArray (.arr xs) = xs) ∧
    (∀ j : Json, pickArray j = [] ∨ ArrReachable (pickArray j) j) ∧
    pickArray (.obj [("data", .obj [("nested", .obj [("orders", .arr [.obj [("id", .num 1)]])])])])
      = [.obj [("id", .num 1)]] ∧
    pickArray (.obj [("rows", .arr [.num 1]), ("orders", .arr [.num 2])]) = [.num 2] ∧
    pickArray (.obj [("foo", .arr [.num 3])]) = [.num 3] ∧
    pickArray (.obj [("a", .str "x")]) = [] ∧
    pickArray .null = [] := by
  refine ⟨fun xs => rfl, ?_, rfl, rfl, rfl, rfl, rfl⟩
  intro j
  match j with
  | .null => left; rfl
  | .bool b => left; rfl
  | .num n => left; rfl
  | .str s => left; rfl
  | .arr xs => right; exact ArrReachable.here xs
  | .obj fs =>
    rw [pickArray]
    cases hn : namedArr fs with
    | some xs =>
      right
      obtain ⟨k, hl⟩ := namedArrGo_occurs hn
      exact ArrReachable.inObj (jsLookup_mem hl) (ArrReachable.here xs)
    | none =>
      cases hw : walk (.obj fs) with
      | some xs =>
        right
        exact walk_occurs _ _ hw
      | none => left; rfl

/-- C9. A canonical record with an empty order number is never matched
against the store: `findRecord` returns `null` for the empty key on every
store without issuing a query, and the upsert step for such a record always
appends a fresh record (a create, flag `false`), never an update. -/
theorem C9_empty_order_always_creates (store : List RelayRec) (rec : RelayRec)
    (h : rec.orderNumber = "") :
    upsertStep store rec = (store ++ [rec], false) ∧
    (∀ dt, findRecord store dt rec.orderNumber = none) := by
  constructor
  · unfold upsertStep findRecord
    rw [h]
    simp
  · intro dt
    unfold findRecord
    rw [h]
    simp

/-- Witness for C9 at a concrete record and the empty store. -/
theorem C9_witness :
    upsertStep [] recNoOrder = ([recNoOrder], false) ∧
    (∀ dt, findRecord [] dt recNoOrder.orderNumber = none) :=
  C9_empty_order_always_creates [] recNoOrder rfl

/-- C5, counterexample. The claim asserts that the Field Normalizer strips a
single leading `#` from the order number "for every RawRow"; but the DOM
path (drs-scrape.mjs lines 98–106) takes the first synonym match verbatim —
no `#`-stripping happens anywhere in that file — so the claim's own example
row yields orderNumber `"#42"`, not `"42"`. -/
theorem C5_counterexample :
    (scrapeMap {} "2025-01-15" c5row).customer = "Acme" ∧
    (scrapeMap {} "2025-01-15" c5row).orderNumber = "#42" ∧
    ("#42" : String) ≠ "42" := by
  refine ⟨by decide, by decide, by decide⟩

/-- C5, amended. Only the relay path (part_002 line 66) strips the hash:
there the order number is the first truthy synonym match coerced to string
with a single leading `#` removed — the JSON analogue of the claim's example
yields `"42"` — while the DOM path (drs-scrape.mjs) stores the first
trim-non-blank synonym match verbatim, so the RawRow of the example yields
`"#42"`. `stripHash` removes exactly one leading hash. -/
theorem C5_amended :
    (relayMap "2025-01-15" (.obj [("customer", .str "Acme"), ("order", .str "#42")])).orderNumber = "42" ∧
    (relayMap "2025-01-15" (.obj [("customer", .str "Acme"), ("order", .str "#42")])).customer = .str "Acme" ∧
    (∀ s : String, stripHash (String.mk ('#' :: s.data)) = s) ∧
    (∀ s : String, stripHash (String.mk ('#' :: '#' :: s.data)) = String.mk ('#' :: s.data)) ∧
    (scrapeMap {} "2025-01-15" c5row).customer = "Acme" ∧
    (scrapeMap {} "2025-01-15" c5row).orderNumber = "#42" := by
  refine ⟨by decide, rfl, fun s => rfl, fun s => rfl, by decide, by decide⟩

/-- C2, counterexample. The claim asserts that a record whose customer,
address and order number are all empty is dropped before any write, status
alone never qualifying it. The relay path does behave so, but the DOM
path's filter (drs-scrape.mjs lines 108–111) keeps a record when *any* of
the six non-date fields — status included — is non-blank, so the status-only
record survives normalization and is handed to the `table.create` batch,
i.e. persisted. -/
theorem C2_counterexample :
    scrapeMapped {} "2025-01-15" [[("Status", "Done")]] = [doneScrapeRec] ∧
    doneScrapeRec.customer = "" ∧ doneScrapeRec.address = "" ∧
    doneScrapeRec.orderNumber = "" ∧ doneScrapeRec.status = "Done" := by
  refine ⟨by decide, rfl, rfl, rfl, rfl⟩

/-- C2, amended. The emptiness filters of the two paths differ. Relay path
(part_002 lines 72–73): every persisted record has a truthy customer,
address or order number, and the status-only record is dropped. DOM path
(drs-scrape.mjs lines 108–111): a record is kept exactly when one of its six
non-date fields is non-blank after trimming, so the status-only record is
persisted there. -/
theorem C2_amended :
    (∀ (d : String) (orders : List Json) (r : RelayRec), r ∈ relayMapped d orders →
      jsTruthy r.customer = true ∨ jsTruthy r.address = true ∨ r.orderNumber ≠ "") ∧
    (∀ (idx : IdxCfg) (d : String) (rows : List RawRow) (rec : ScrapeRec),
      rec ∈ scrapeMapped idx d rows →
      jsTrim rec.customer ≠ "" ∨ jsTrim rec.address ≠ "" ∨ jsTrim rec.phone ≠ "" ∨
      jsTrim rec.size ≠ "" ∨ jsTrim rec.orderNumber ≠ "" ∨ jsTrim rec.status ≠ "") ∧
    relayMapped "2025-01-15" [.obj [("status", .str "Done")]] = [] ∧
    scrapeMapped {} "2025-01-15" [[("Status", "Done")]] ≠ [] := by
  refine ⟨?_, ?_, rfl, by decide⟩
  · intro d orders r hr
    have hk : keepRelay r = true := (List.mem_filter.mp hr).2
    unfold keepRelay at hk
    simp only [Bool.or_eq_true, bne_iff_ne] at hk
    tauto
  · intro idx d rows rec hr
    have hk : keepScrape rec = true := (List.mem_filter.mp hr).2
    unfold keepScrape at hk
    simp only [List.any_cons, List.any_nil, Bool.or_eq_true, decide_eq_true_eq,
      Bool.or_false] at hk
    rcases hk with h | h | h | h | h | h
    · exact Or.inl (by intro he; rw [he] at h; simp at h)
    · exact Or.inr (Or.inl (by intro he; rw [he] at h; simp at h))
    · exact Or.inr (Or.inr (Or.inl (by intro he; rw [he] at h; simp at h)))
    · exact Or.inr (Or.inr (Or.inr (Or.inl (by intro he; rw [he] at h; simp at h))))
    · exact Or.inr (Or.inr (Or.inr (Or.inr (Or.inl (by intro he; rw [he] at h; simp at h)))))
    · exact Or.inr (Or.inr (Or.inr (Or.inr (Or.inr (by intro he; rw [he] at h; simp at h)))))

/-- Witness for C2's amended theorem: both filter invariants discharged at
concrete inputs — a customer-bearing relay order and a customer-bearing
scraped row. -/
theorem C2_amended_witness :
    (jsTruthy (relayMap "2025-01-15" (.obj [("customer", .str "Acme")])).customer = true ∨
      jsTruthy (relayMap "2025-01-15" (.obj [("customer", .str "Acme")])).address = true ∨
      (relayMap "2025-01-15" (.obj [("customer", .str "Acme")])).orderNumber ≠ "") ∧
    (jsTrim (scrapeMap {} "2025-01-15" [("Customer", "Acme")]).customer ≠ "" ∨
      jsTrim (scrapeMap {} "2025-01-15" [("Customer", "Acme")]).address ≠ "" ∨
      jsTrim (scrapeMap {} "2025-01-15" [("Customer", "Acme")]).phone ≠ "" ∨
      jsTrim (scrapeMap {} "2025-01-15" [("Customer", "Acme")]).size ≠ "" ∨
      jsTrim (scrapeMap {} "2025-01-15" [("Customer", "Acme")]).orderNumber ≠ "" ∨
      jsTrim (scrapeMap {} "2025-01-15" [("Customer", "Acme")]).status ≠ "") :=
  ⟨C2_amended.1 "2025-01-15" [.obj [("customer", .str "Acme")]] _ (List.mem_singleton.mpr rfl),
   C2_amended.2.1 {} "2025-01-15" [[("Customer", "Acme")]] _ (List.mem_singleton.mpr rfl)⟩

/-- C4, counterexample. The claim asserts the equal-score tie-break by row
count for both extractors, but part_001's `extractTable` (line 199) sorts by
`b.score - a.score` alone: with two equal-score tables it keeps DOM order
and selects the first one even though the second has more body rows. -/
theorem C4_counterexample :
    bestPack001 [packOneRow, packTwoRows] = packOneRow ∧
    packOneRow.score = packTwoRows.score ∧
    packTwoRows.rows.length > packOneRow.rows.length := by
  refine ⟨by decide, rfl, by decide⟩

/-- C4, amended. In drs-scrape.mjs (lines 252–254) selection follows (score
descending, row-count descending): a strictly higher-scoring table wins
regardless of DOM order, and among equal scores the table with strictly more
body rows wins regardless of DOM order. In part_001 (line 199) selection
follows score descending only: a strictly higher-scoring table wins
regardless of DOM order, but among equal scores the first table in DOM
order is selected, whatever the row counts. -/
theorem C4_amended :
    (∀ p q : Pack, p.score > q.score → bestPack [p, q] = p ∧ bestPack [q, p] = p) ∧
    (∀ p q : Pack, p.score = q.score → p.rows.length > q.rows.length →
      bestPack [p, q] = p ∧ bestPack [q, p] = p) ∧
    (∀ p q : Pack, p.score > q.score → bestPack001 [p, q] = p ∧ bestPack001 [q, p] = p) ∧
    (∀ p q : Pack, p.score = q.score → bestPack001 [p, q] = p) := by
  refine ⟨?_, ?_, ?_, ?_⟩
  · intro p q h
    have h1 : packLt q p = false := by
      simp only [packLt, Bool.or_eq_false_iff, Bool.and_eq_false_iff,
        decide_eq_false_iff_not, beq_eq_false_iff_ne, ne_eq]
      exact ⟨by omega, Or.inl (by omega)⟩
    have h2 : packLt p q = true := by
      simp only [packLt, Bool.or_eq_true, decide_eq_true_eq]
      exact Or.inl h
    constructor
    · simp [bestPack, stableSort, stableInsert, h1]
    · simp [bestPack, stableSort, stableInsert, h2]
  · intro p q hs hr
    have h1 : packLt q p = false := by
      simp only [packLt, Bool.or_eq_false_iff, Bool.and_eq_false_iff,
        decide_eq_false_iff_not, beq_eq_false_iff_ne, ne_eq]
      exact ⟨by omega, Or.inr (by omega)⟩
    have h2 : packLt p q = true := by
      simp only [packLt, Bool.or_eq_true, decide_eq_true_eq, Bool.and_eq_true, beq_iff_eq]
      exact Or.inr ⟨hs, hr⟩
    constructor
    · simp [bestPack, stableSort, stableInsert, h1]
    · simp [bestPack, stableSort, stableInsert, h2]
  · intro p q h
    have h1 : packLt001 q p = false := by
      simp only [packLt001, decide_eq_false_iff_not]
      omega
    have h2 : packLt001 p q = true := by
      simp only [packLt001, decide_eq_true_eq]
      omega
    constructor
    · simp [bestPack001, stableSort, stableInsert, h1]
    · simp [bestPack001, stableSort, stableInsert, h2]
  · intro p q h
    have h1 : packLt001 q p = false := by
      simp only [packLt001, decide_eq_false_iff_not]
      omega
    simp [bestPack001, stableSort, stableInsert, h1]

/-- Witness for C4's amended theorem at concrete packs: the score-2 table
beats the score-1 table in both extractors and both DOM orders, the
equal-score row-count tie-break fires in drs-scrape.mjs, and the equal-score
DOM-order tie-break fires in part_001. -/
theorem C4_amended_witness :
    (bestPack [packScoreTwo, packOneRow] = packScoreTwo ∧
      bestPack [packOneRow, packScoreTwo] = packScoreTwo) ∧
    (bestPack [packTwoRows, packOneRow] = packTwoRows ∧
      bestPack [packOneRow, packTwoRows] = packTwoRows) ∧
    (bestPack001 [packScoreTwo, packOneRow] = packScoreTwo ∧
      bestPack001 [packOneRow, packScoreTwo] = packScoreTwo) ∧
    bestPack001 [packTwoRows, packOneRow] = packTwoRows :=
  ⟨C4_amended.1 packScoreTwo packOneRow (by decide),
   C4_amended.2.1 packTwoRows packOneRow rfl (by decide),
   C4_amended.2.2.1 packScoreTwo packOneRow (by decide),
   C4_amended.2.2.2 packTwoRows packOneRow rfl⟩

/-- C7, counterexample. The claim asserts that in a headerless table `colI`
holds the cleaned text of the row's I-th cell in DOM column order; but the
source filters out blank cells *before* assigning `col` indices, so a row
with a blank middle cell shifts its later cells left: the third DOM cell
`"b"` lands in `col2`, whose DOM cell cleans to `""`. -/
theorem C7_counterexample :
    bodyRow ["a", " ", "b"] = some [("col1", "a"), ("col2", "b")] ∧
    clean " " = "" ∧ ("b" : String) ≠ "" := by
  refine ⟨by decide, by decide, by decide⟩

/-- C7, amended. For a headerless table (no header cells, no keyword-bearing
first row), a body row whose cells are all blank after cleaning produces no
RawRow; otherwise the produced RawRow's keys are exactly `col1..colN` in
order where N is the number of non-blank cleaned cells, and the values are
exactly the non-blank cleaned cells in DOM order — blank cells are skipped,
shifting subsequent cells left rather than occupying their DOM column. -/
theorem C7_amended (tds : List String) :
    (bodyRow tds = none ↔ ∀ s ∈ tds, clean s = "") ∧
    (∀ row, bodyRow tds = some row →
      row ≠ [] ∧
      row.map Prod.fst = (List.range row.length).map (fun i => "col" ++ toString (i + 1)) ∧
      row.map Prod.snd = (tds.map clean).filter (· ≠ "")) := by
  constructor
  · simp only [bodyRow]
    split
    · rename_i hE
      simp only [true_iff]
      rw [List.isEmpty_iff, List.filter_eq_nil_iff] at hE
      intro s hs
      have := hE (clean s) (List.mem_map_of_mem clean hs)
      simpa using this
    · rename_i hE
      constructor
      · intro h
        exact absurd h (Option.some_ne_none _)
      · intro hall
        apply absurd _ hE
        rw [List.isEmpty_iff, List.filter_eq_nil_iff]
        intro a ha
        rw [List.mem_map] at ha
        obtain ⟨s, hs, rfl⟩ := ha
        simpa using hall s hs
  · intro row h
    simp only [bodyRow] at h
    split at h
    · exact absurd h (by simp)
    · rename_i hE
      rw [Option.some_inj] at h
      subst h
      rw [List.isEmpty_iff] at hE
      refine ⟨?_, ?_, ?_⟩
      · simpa using hE
      · rw [List.map_map, List.length_map, List.enum_length]
        calc ((tds.map clean).filter (· ≠ "")).enum.map
              (Prod.fst ∘ fun iv => ("col" ++ toString (iv.1 + 1), iv.2))
            = (((tds.map clean).filter (· ≠ "")).enum.map Prod.fst).map
                (fun i => "col" ++ toString (i + 1)) := by
              rw [List.map_map]
              rfl
          _ = (List.range ((tds.map clean).filter (· ≠ "")).length).map
                (fun i => "col" ++ toString (i + 1)) := by
              rw [List.enum_map_fst]
      · rw [List.map_map]
        calc ((tds.map clean).filter (· ≠ "")).enum.map
              (Prod.snd ∘ fun iv => ("col" ++ toString (iv.1 + 1), iv.2))
            = ((tds.map clean).filter (· ≠ "")).enum.map Prod.snd := by rfl
          _ = (tds.map clean).filter (· ≠ "") := List.enum_map_snd _

/-- Witness for C7's amended theorem: the some-case obligations discharged
at the concrete three-cell row with a blank middle cell. -/
theorem C7_amended_witness :
    ([("col1", "a"), ("col2", "b")] : RawRow) ≠ [] ∧
    ([("col1", "a"), ("col2", "b")] : RawRow).map Prod.fst
      = (List.range ([("col1", "a"), ("col2", "b")] : RawRow).length).map
          (fun i => "col" ++ toString (i + 1)) ∧
    ([("col1", "a"), ("col2", "b")] : RawRow).map Prod.snd
      = (["a", " ", "b"].map clean).filter (· ≠ "") :=
  (C7_amended ["a", " ", "b"]).2 [("col1", "a"), ("col2", "b")] (by decide)

/-- C3. Every non-OPTIONS request gets a JSON body of exactly one of the
four shapes: `500 {error}` when any of base/key/token is absent after
trailing-slash stripping, with zero upstream calls made; `200 {orders,
source}` when some attempt is accepted; `502 {orders: [], diagnostics}` when
the attempts are exhausted in debug mode; `200 {orders: [], source:
"no-array"}` when they are exhausted outside debug mode. The body is a
`Json` value in every disjunct, so the response is always parseable JSON. -/
theorem C3_relay_response_shapes (baseEnv key token : String) (debug : Bool)
    (start endd : String) (resps : List Resp) :
    ((relayFetch baseEnv key token debug start endd resps).status = 500 ∧
      (relayFetch baseEnv key token debug start endd resps).body
        = .obj [("error", .str "Worker missing DRS_BASE/DRS_DEV_KEY/DRS_API_TOKEN")] ∧
      (relayFetch baseEnv key token debug start endd resps).consumed = 0 ∧
      (trimSlash baseEnv = "" ∨ key = "" ∨ token = "")) ∨
    ((relayFetch baseEnv key token debug start endd resps).status = 200 ∧
      (trimSlash baseEnv ≠ "" ∧ key ≠ "" ∧ token ≠ "") ∧
      ∃ orders mode, (relayFetch baseEnv key token debug start endd resps).body
        = .obj [("orders", .arr orders), ("source", .str mode)]) ∨
    ((relayFetch baseEnv key token debug start endd resps).status = 502 ∧ debug = true ∧
      ∃ d, (relayFetch baseEnv key token debug start endd resps).body
        = .obj [("orders", .arr []), ("diagnostics", diagJson d)]) ∨
    ((relayFetch baseEnv key token debug start endd resps).status = 200 ∧ debug = false ∧
      (relayFetch baseEnv key token debug start endd resps).body
        = .obj [("orders", .arr []), ("source", .str "no-array")]) := by
  unfold relayFetch
  dsimp only
  split
  · rename_i hcond
    left
    refine ⟨rfl, rfl, rfl, ?_⟩
    have h2 := hcond
    simp only [Bool.or_eq_true, decide_eq_true_eq] at h2
    tauto
  · rename_i hcond
    split
    · rename_i orders mode n heq
      right; left
      refine ⟨rfl, ?_, orders, mode, rfl⟩
      have h2 := hcond
      simp only [Bool.or_eq_true, decide_eq_true_eq, not_or] at h2
      tauto
    · rename_i d n heq
      split
      · rename_i hdbg
        right; right; left
        exact ⟨rfl, hdbg, d, rfl⟩
      · rename_i hdbg
        right; right; right
        exact ⟨rfl, by simpa using hdbg, rfl⟩

/-- A found first-accept index is a position of the response list. -/
theorem firstAcceptIdx_some_lt (debug : Bool) :
    ∀ {rs : List Resp} {i : Nat}, firstAcceptIdx debug rs = some i → i < rs.length
  | [], _, h => by simp [firstAcceptIdx] at h
  | r :: rest, i, h => by
    rw [firstAcceptIdx] at h
    split at h
    · cases h
      simp
    · cases hf : firstAcceptIdx debug rest with
      | none => rw [hf] at h; simp at h
      | some j =>
        rw [hf] at h
        simp only [Option.map_some'] at h
        cases h
        have := firstAcceptIdx_some_lt debug hf
        simpa using Nat.succ_lt_succ this

/-- One unfolding of the attempt loop: an accepted head returns its picked
array and mode at cost one call; any other head updates the diagnostic and
recurses at cost one extra call. -/
theorem relayLoop_cons (debug : Bool) (d : Diag) (att : Attempt) (r : Resp)
    (rest : List (Attempt × Resp)) :
    relayLoop debug d ((att, r) :: rest) =
      if accepts debug r then
        (LoopOut.accepted (pickArray (r.parsed.getD .null)) att.mode, 1)
      else
        ((relayLoop debug (mkDiag att r) rest).1,
         (relayLoop debug (mkDiag att r) rest).2 + 1) := by
  rw [relayLoop]
  cases hp : r.parsed with
  | none => simp [accepts, hp]
  | some p =>
    by_cases hok : (r.ok && jsTruthy p) = true
    · by_cases hne : (decide ((pickArray p).length > 0) || !debug) = true
      · simp [accepts, hp, hok, hne]
      · simp [accepts, hp, hok, Bool.not_eq_true _ ▸ hne]
    · simp [accepts, hp, Bool.not_eq_true _ ▸ hok]

/-- The attempt loop stops exactly at the first accepted response: when one
exists at position `i` it consumes `i + 1` upstream calls and returns an
accepted outcome; when none exists it consumes the whole list and exhausts.
The threaded diagnostic value never affects the count or the verdict. -/
theorem relayLoop_spec (debug : Bool) :
    ∀ (zipped : List (Attempt × Resp)) (d : Diag),
    (match firstAcceptIdx debug (zipped.map Prod.snd) with
     | some i => (relayLoop debug d zipped).2 = i + 1 ∧
         ∃ os m, (relayLoop debug d zipped).1 = LoopOut.accepted os m
     | none => (relayLoop debug d zipped).2 = zipped.length ∧
         ∃ dg, (relayLoop debug d zipped).1 = LoopOut.exhausted dg)
  | [], d => by simp [firstAcceptIdx, relayLoop]
  | (att, r) :: rest, d => by
    have IH := relayLoop_spec debug rest (mkDiag att r)
    simp only [List.map_cons]
    rw [firstAcceptIdx, relayLoop_cons]
    by_cases ha : accepts debug r = true
    · rw [if_pos ha, if_pos ha]
      exact ⟨rfl, pickArray (r.parsed.getD .null), att.mode, rfl⟩
    · rw [if_neg ha, if_neg ha]
      cases hf : firstAcceptIdx debug (rest.map Prod.snd) with
      | none =>
        rw [hf] at IH
        simp only [Option.map_none']
        exact ⟨by simp [IH.1], IH.2⟩
      | some j =>
        rw [hf] at IH
        simp only [Option.map_some']
        exact ⟨by simp [IH.1], IH.2⟩

/-- The attempt loop never consumes more responses than it was given. -/
theorem relayLoop_consumed_le (debug : Bool) (d : Diag)
    (zipped : List (Attempt × Resp)) :
    (relayLoop debug d zipped).2 ≤ zipped.length := by
  have h := relayLoop_spec debug zipped d
  cases hf : firstAcceptIdx debug (zipped.map Prod.snd) with
  | some i =>
    rw [hf] at h
    have hi := firstAcceptIdx_some_lt debug hf
    rw [List.length_map] at hi
    omega
  | none =>
    rw [hf] at h
    rw [h.1]

/-- C6, amended. The relay builds exactly six attempts — for each of the two
endpoint paths (`order` first, then `orders`), form-encoded POST, then
header-based POST, then header-based GET — and consumes them sequentially,
never more than six upstream calls per request. It returns at the first
*accepted* response, where acceptance is: 2xx (`res.ok`), a truthy JSON
parse, and — only in debug mode — a non-empty array from `pickArray`.
Outside debug mode an OK, JSON-parsing response is accepted even when its
picked array is empty (answered as `200 {orders: [], source: mode}`), so
the loop can stop before any attempt yielding a non-empty array; attempts
after the accepted one are never made (consumed = index + 1). -/
theorem C6_amended :
    (∀ base start endd : String, buildAttempts base start endd =
      [ ⟨base ++ "/api/read/order/" ++ start ++ "/" ++ endd ++ "/", "post-form"⟩,
        ⟨base ++ "/api/read/order/" ++ start ++ "/" ++ endd ++ "/", "post-headers"⟩,
        ⟨base ++ "/api/read/order/" ++ start ++ "/" ++ endd ++ "/", "get-headers"⟩,
        ⟨base ++ "/api/read/orders/" ++ start ++ "/" ++ endd ++ "/", "post-form"⟩,
        ⟨base ++ "/api/read/orders/" ++ start ++ "/" ++ endd ++ "/", "post-headers"⟩,
        ⟨base ++ "/api/read/orders/" ++ start ++ "/" ++ endd ++ "/", "get-headers"⟩ ]) ∧
    (∀ (baseEnv key token : String) (debug : Bool) (start endd : String) (resps : List Resp),
      (relayFetch baseEnv key token debug start endd resps).consumed ≤ 6) ∧
    (∀ (debug : Bool) (d : Diag) (zipped : List (Attempt × Resp)),
      (relayLoop debug d zipped).2 =
        match firstAcceptIdx debug (zipped.map Prod.snd) with
        | some i => i + 1
        | none => zipped.length) ∧
    (∀ (debug : Bool) (d : Diag) (zipped : List (Attempt × Resp)),
      (∃ os m, (relayLoop debug d zipped).1 = LoopOut.accepted os m) ↔
        (firstAcceptIdx debug (zipped.map Prod.snd)).isSome) := by
  refine ⟨fun base start endd => rfl, ?_, ?_, ?_⟩
  · intro baseEnv key token debug start endd resps
    unfold relayFetch
    dsimp only
    split
    · exact Nat.zero_le 6
    · have hle := relayLoop_consumed_le debug diag0
        ((buildAttempts (trimSlash baseEnv) start endd).zip resps)
      have hz : ((buildAttempts (trimSlash baseEnv) start endd).zip resps).length ≤ 6 := by
        rw [List.length_zip]
        exact le_trans (Nat.min_le_left _ _) (le_of_eq rfl)
      split
      · rename_i orders mode n heq
        have h2 : (relayLoop debug diag0 ((buildAttempts (trimSlash baseEnv) start endd).zip resps)).2 = n := by
          rw [heq]
        rw [h2] at hle
        dsimp only
        omega
      · rename_i dg n heq
        have h2 : (relayLoop debug diag0 ((buildAttempts (trimSlash baseEnv) start endd).zip resps)).2 = n := by
          rw [heq]
        rw [h2] at hle
        split <;> · dsimp only; omega
  · intro debug d zipped
    have h := relayLoop_spec debug zipped d
    cases hf : firstAcceptIdx debug (zipped.map Prod.snd) with
    | some i => rw [hf] at h; exact h.1
    | none => rw [hf] at h; exact h.1
  · intro debug d zipped
    have h := relayLoop_spec debug zipped d
    cases hf : firstAcceptIdx debug (zipped.map Prod.snd) with
    | some i =>
      rw [hf] at h
      simp only [Option.isSome_some, iff_true]
      exact h.2
    | none =>
      rw [hf] at h
      simp only [Option.isSome_none, Bool.false_eq_true, iff_false]
      rintro ⟨os, m, heq⟩
      obtain ⟨dg, hex⟩ := h.2
      rw [heq] at hex
      exact LoopOut.noConfusion hex

/-- C6, counterexample. Outside debug mode the relay does *not* wait for
the first response that yields a non-empty array: with attempt 1 answering
OK with `{}` (picked array empty) and attempt 2 holding a non-empty `orders`
array, the relay returns after one upstream call with `orders: []` and
`source: "post-form"` — it never reaches the non-empty attempt the claim
says it returns on. -/
theorem C6_counterexample :
    (relayFetch "b" "k" "t" false "2025-01-15" "2025-01-15"
      [respOkEmptyObj, respOkOrders, respFail, respFail, respFail, respFail]).status = 200 ∧
    (relayFetch "b" "k" "t" false "2025-01-15" "2025-01-15"
      [respOkEmptyObj, respOkOrders, respFail, respFail, respFail, respFail]).body
        = .obj [("orders", .arr []), ("source", .str "post-form")] ∧
    (relayFetch "b" "k" "t" false "2025-01-15" "2025-01-15"
      [respOkEmptyObj, respOkOrders, respFail, respFail, respFail, respFail]).consumed = 1 ∧
    pickArray (.obj []) = [] ∧
    (pickArray (.obj [("orders", .arr [.obj [("id", .num 1)]])])).length = 1 := by
  refine ⟨rfl, rfl, rfl, rfl, rfl⟩

/-- Lowercasing is idempotent at the character level: the result of
`Char.toLower` lands outside the uppercase ASCII range. -/
theorem charToLower_idem (c : Char) : Char.toLower (Char.toLower c) = Char.toLower c := by
  by_cases h : 65 ≤ c.toNat ∧ c.toNat ≤ 90
  · have h1 : Char.toLower c = Char.ofNat (c.toNat + 32) := by
      unfold Char.toLower
      simp only [ge_iff_le]
      rw [if_pos h]
    have h2 : (Char.ofNat (c.toNat + 32)).toNat = c.toNat + 32 := by
      obtain ⟨h65, h90⟩ := h
      set n := c.toNat with hn
      interval_cases n <;> decide
    rw [h1]
    unfold Char.toLower
    simp only [ge_iff_le]
    rw [h2, if_neg (by omega)]
  · have h1 : Char.toLower c = c := by
      unfold Char.toLower
      simp only [ge_iff_le]
      rw [if_neg h]
    rw [h1, h1]

/-- Lowercasing is idempotent at the string level. -/
theorem jsLower_idem (s : String) : jsLower (jsLower s) = jsLower s := by
  unfold jsLower
  simp only [List.map_map]
  congr 1
  exact List.map_congr_left (fun c _ => charToLower_idem c)

/-- A member of `setKey out k v` is a member of `out` or the new entry. -/
theorem setKey_mem {out : List (String × Json)} {k : String} {v : Json}
    {kv : String × Json} (h : kv ∈ setKey out k v) : kv ∈ out ∨ kv = (k, v) := by
  unfold setKey at h
  split at h
  · rw [List.mem_map] at h
    obtain ⟨p, hp, he⟩ := h
    by_cases hk : (p.1 == k) = true
    · rw [if_pos hk] at he
      right
      exact he.symm
    · rw [if_neg hk] at he
      left
      exact he ▸ hp
  · rw [List.mem_append] at h
    cases h with
    | inl h => left; exact h
    | inr h => right; simpa using h

mutual
/-- Every entry `flatten` adds is a non-object value stored under an
already-lowercase key (lowercasing the key again changes nothing). -/
theorem flatten_mem : ∀ (j : Json) (pre : String) (out : List (String × Json))
    (kv : String × Json), kv ∈ flatten j pre out →
    kv ∈ out ∨ (isPlainObj kv.2 = false ∧ jsLower kv.1 = kv.1)
  | .obj fields, pre, out, kv, h => by
    rw [flatten] at h
    exact flattenFields_mem fields out kv h
  | .null, pre, out, kv, h => by
    rcases setKey_mem h with hm | he
    · exact Or.inl hm
    · exact Or.inr (by rw [he]; exact ⟨rfl, jsLower_idem pre⟩)
  | .bool b, pre, out, kv, h => by
    rcases setKey_mem h with hm | he
    · exact Or.inl hm
    · exact Or.inr (by rw [he]; exact ⟨rfl, jsLower_idem pre⟩)
  | .num n, pre, out, kv, h => by
    rcases setKey_mem h with hm | he
    · exact Or.inl hm
    · exact Or.inr (by rw [he]; exact ⟨rfl, jsLower_idem pre⟩)
  | .str s, pre, out, kv, h => by
    rcases setKey_mem h with hm | he
    · exact Or.inl hm
    · exact Or.inr (by rw [he]; exact ⟨rfl, jsLower_idem pre⟩)
  | .arr xs, pre, out, kv, h => by
    rcases setKey_mem h with hm | he
    · exact Or.inl hm
    · exact Or.inr (by rw [he]; exact ⟨rfl, jsLower_idem pre⟩)

/-- Field-list version of `flatten_mem`. -/
theorem flattenFields_mem : ∀ (fields : List (String × Json))
    (out : List (String × Json)) (kv : String × Json), kv ∈ flattenFields fields out →
    kv ∈ out ∨ (isPlainObj kv.2 = false ∧ jsLower kv.1 = kv.1)
  | [], out, kv, h => by
    rw [flattenFields] at h
    exact Or.inl h
  | (k, v) :: rest, out, kv, h => by
    rw [flattenFields] at h
    rcases flattenFields_mem rest (flatten v (jsLower k) out) kv h with hm | hp
    · exact flatten_mem v (jsLower k) out kv hm
    · exact Or.inr hp
end

/-- C8. The relay path normalizes by flattening first and picking second:
each canonical field of the mapped record is the first-truthy-synonym pick
over `flatten(o)`. The flat map is single-level — no value in it is a plain
object, since `flatten` descends into every non-array object — and each key
is lowercase. Nested objects are descended into and their leaves stored
under the lowercased leaf field name (key `"b"` for the leaf `"A".."B"`,
not a concatenated path), arrays are stored as leaf values and never
expanded, and `pick` walks the synonym list in order, returning on the
first truthy hit and skipping absent keys. -/
theorem C8_flatten_then_pick :
    (∀ (d : String) (o : Json), (relayMap d o).customer
        = pickJs (flattenTop o) ["customer", "customer_name", "name", "client", "contactname"]) ∧
    (∀ (j : Json) (kv : String × Json), kv ∈ flattenTop j →
        isPlainObj kv.2 = false ∧ jsLower kv.1 = kv.1) ∧
    (∀ (pre : String) (out : List (String × Json)) (xs : List Json),
        flatten (.arr xs) pre out = setKey out (jsLower pre) (.arr xs)) ∧
    flattenTop (.obj [("A", .obj [("B", .str "x")])]) = [("b", .str "x")] ∧
    (∀ xs : List Json, flattenTop (.obj [("Size", .arr xs)]) = [("size", .arr xs)]) ∧
    (∀ (flat : List (String × Json)) (k : String) (ks : List String) (v : Json),
        jsLookup flat k = some v → jsTruthy v = true → pickJs flat (k :: ks) = v) ∧
    (∀ (flat : List (String × Json)) (k : String) (ks : List String),
        jsLookup flat k = none → pickJs flat (k :: ks) = pickJs flat ks) := by
  refine ⟨fun d o => rfl, ?_, fun pre out xs => rfl, rfl, fun xs => rfl, ?_, ?_⟩
  · intro j kv h
    rcases flatten_mem j "" [] kv h with hm | hp
    · exact absurd hm (List.not_mem_nil kv)
    · exact hp
  · intro flat k ks v hl ht
    rw [pickJs, hl]
    simp [ht]
  · intro flat k ks hl
    rw [pickJs, hl]

/-- Witness for C8: the invariants discharged at the nested example — the
leaf of `{"A": {"B": "x"}}` sits at lowercase key `"b"` with a non-object
value — and a concrete first-truthy pick. -/
theorem C8_witness :
    (isPlainObj (Json.str "x") = false ∧ jsLower "b" = "b") ∧
    pickJs [("customer", .str "Acme")] ["customer", "name"] = .str "Acme" :=
  ⟨C8_flatten_then_pick.2.1 (.obj [("A", .obj [("B", .str "x")])]) ("b", .str "x")
      (List.mem_singleton.mpr rfl),
   C8_flatten_then_pick.2.2.2.2.2.1 [("customer", .str "Acme")] "customer" ["name"]
      (.str "Acme") rfl rfl⟩

/-- A found query index is in range and its record carries the queried
pair. -/
theorem findRecordIdx_some : ∀ {store : List RelayRec} {d o : String} {i : Nat},
    findRecordIdx store d o = some i →
    ∃ h : i < store.length, (store.get ⟨i, h⟩).date = d ∧ (store.get ⟨i, h⟩).orderNumber = o
  | [], _, _, _, h => by simp [findRecordIdx] at h
  | r :: rest, d, o, i, h => by
    rw [findRecordIdx] at h
    split at h
    · rename_i hcond
      cases h
      simp only [Bool.and_eq_true, decide_eq_true_eq] at hcond
      exact ⟨Nat.succ_pos _, hcond.1, hcond.2⟩
    · cases hf : findRecordIdx rest d o with
      | none => rw [hf] at h; simp at h
      | some j =>
        rw [hf] at h
        simp only [Option.map_some'] at h
        cases h
        obtain ⟨hj, h1, h2⟩ := findRecordIdx_some hf
        exact ⟨Nat.succ_lt_succ hj, h1, h2⟩

/-- If some record carries the pair, the query finds an index. -/
theorem findRecordIdx_isSome_of_hasPair : ∀ {store : List RelayRec} {d o : String},
    hasPair store d o → ∃ i, findRecordIdx store d o = some i
  | [], _, _, h => absurd h (by simp [hasPair])
  | r :: rest, d, o, h => by
    rw [findRecordIdx]
    split
    · exact ⟨0, rfl⟩
    · rename_i hcond
      obtain ⟨w, hw, hp1, hp2⟩ := h
      rw [List.mem_cons] at hw
      cases hw with
      | inl he =>
        exfalso
        apply hcond
        subst he
        simp [hp1, hp2]
      | inr hmem =>
        obtain ⟨j, hj⟩ := findRecordIdx_isSome_of_hasPair ⟨w, hmem, hp1, hp2⟩
        exact ⟨j + 1, by rw [hj]; rfl⟩

/-- Replacing position `i` with a record that carries the same pair as the
record it replaces preserves every pair the store holds. -/
theorem hasPair_set : ∀ (store : List RelayRec) (i : Nat) (rec : RelayRec) (d o : String),
    hasPair store d o →
    (∀ h : i < store.length,
      (store.get ⟨i, h⟩).date = rec.date ∧ (store.get ⟨i, h⟩).orderNumber = rec.orderNumber) →
    hasPair (store.set i rec) d o
  | [], _, _, _, _, h, _ => absurd h (by simp [hasPair])
  | r :: rest, 0, rec, d, o, h, hsame => by
    obtain ⟨w, hw, hp1, hp2⟩ := h
    rw [List.mem_cons] at hw
    cases hw with
    | inl he =>
      subst he
      obtain ⟨hd, ho⟩ := hsame (Nat.succ_pos _)
      exact ⟨rec, List.mem_cons_self _ _, by rw [← hd]; exact hp1, by rw [← ho]; exact hp2⟩
    | inr hmem =>
      exact ⟨w, List.mem_cons_of_mem _ hmem, hp1, hp2⟩
  | r :: rest, i + 1, rec, d, o, h, hsame => by
    obtain ⟨w, hw, hp1, hp2⟩ := h
    rw [List.mem_cons] at hw
    cases hw with
    | inl he =>
      subst he
      exact ⟨w, List.mem_cons_self _ _, hp1, hp2⟩
    | inr hmem =>
      have IH := hasPair_set rest i rec d o ⟨w, hmem, hp1, hp2⟩
        (fun hlt => hsame (Nat.succ_lt_succ hlt))
      obtain ⟨w2, hw2, hq1, hq2⟩ := IH
      exact ⟨w2, List.mem_cons_of_mem _ hw2, hq1, hq2⟩

/-- Setting an in-range position puts the new record in the store. -/
theorem mem_set_self : ∀ (store : List RelayRec) (i : Nat) (rec : RelayRec),
    i < store.length → rec ∈ store.set i rec
  | [], i, _, h => absurd h (by simp)
  | r :: rest, 0, rec, _ => List.mem_cons_self _ _
  | r :: rest, i + 1, rec, h =>
    List.mem_cons_of_mem _ (mem_set_self rest i rec (Nat.lt_of_succ_lt_succ h))

/-- One upsert step preserves every (date, order-number) pair the store
already holds: a create only appends, and an update replaces a record with
one carrying the same pair the query matched. -/
theorem upsertStep_preserves (store : List RelayRec) (rec : RelayRec)
    (d o : String) (h : hasPair store d o) : hasPair (upsertStep store rec).1 d o := by
  unfold upsertStep
  cases hf : findRecord store rec.date rec.orderNumber with
  | none =>
    obtain ⟨w, hw, hp⟩ := h
    exact ⟨w, List.mem_append_left _ hw, hp⟩
  | some i =>
    unfold findRecord at hf
    split at hf
    · exact absurd hf (by simp)
    · have hq := findRecordIdx_some hf
      exact hasPair_set store i rec d o h
        (fun hlt => ⟨hq.choose_spec.1, hq.choose_spec.2⟩)

/-- After one upsert step for a record with a non-empty order number, the
store holds that record's (date, order-number) pair: an update leaves the
matched record's pair in place, a create appends the record itself. -/
theorem upsertStep_establishes (store : List RelayRec) (rec : RelayRec)
    (hne : rec.orderNumber ≠ "") :
    hasPair (upsertStep store rec).1 rec.date rec.orderNumber := by
  unfold upsertStep
  cases hf : findRecord store rec.date rec.orderNumber with
  | none =>
    exact ⟨rec, List.mem_append_right _ (List.mem_singleton.mpr rfl), rfl, rfl⟩
  | some i =>
    unfold findRecord at hf
    rw [if_neg hne] at hf
    obtain ⟨hi, _, _⟩ := findRecordIdx_some hf
    exact ⟨rec, mem_set_self store i rec hi, rfl, rfl⟩

/-- A full reconciler run preserves every pair the store already holds. -/
theorem runUpsert_preserves : ∀ (recs : List RelayRec) (store : List RelayRec)
    (d o : String), hasPair store d o → hasPair (runUpsert store recs).store d o
  | [], store, d, o, h => h
  | rec :: rest, store, d, o, h => by
    rw [runUpsert]
    have hp := upsertStep_preserves store rec d o h
    rcases hstep : upsertStep store rec with ⟨s, b⟩
    rw [hstep] at hp
    cases b
    · exact runUpsert_preserves rest s d o hp
    · exact runUpsert_preserves rest s d o hp

/-- After a run over records with non-empty order numbers, the store holds
every processed record's (date, order-number) pair. -/
theorem runUpsert_establishes : ∀ (recs : List RelayRec) (store : List RelayRec),
    (∀ r ∈ recs, r.orderNumber ≠ "") →
    ∀ r ∈ recs, hasPair (runUpsert store recs).store r.date r.orderNumber
  | [], store, _, r, hr => absurd hr (List.not_mem_nil r)
  | rec :: rest, store, hall, r, hr => by
    rw [runUpsert]
    rw [List.mem_cons] at hr
    have hest := upsertStep_establishes store rec (hall rec (List.mem_cons_self _ _))
    rcases hstep : upsertStep store rec with ⟨s, b⟩
    rw [hstep] at hest
    have hrest : ∀ x ∈ rest, x.orderNumber ≠ "" :=
      fun x hx => hall x (List.mem_cons_of_mem _ hx)
    cases hr with
    | inl he =>
      subst he
      cases b
      · exact runUpsert_preserves rest s r.date r.orderNumber hest
      · exact runUpsert_preserves rest s r.date r.orderNumber hest
    | inr hmem =>
      cases b
      · exact runUpsert_establishes rest s hrest r hmem
      · exact runUpsert_establishes rest s hrest r hmem

/-- When every record has a non-empty order number and its pair already in
the store, a run performs only updates: the store size is unchanged, zero
creates are issued, and every record counts as an update. -/
theorem runUpsert_all_updates : ∀ (recs : List RelayRec) (store : List RelayRec),
    (∀ r ∈ recs, r.orderNumber ≠ "" ∧ hasPair store r.date r.orderNumber) →
    (runUpsert store recs).store.length = store.length ∧
    (runUpsert store recs).created = 0 ∧
    (runUpsert store recs).updated = recs.length
  | [], store, _ => ⟨rfl, rfl, rfl⟩
  | rec :: rest, store, hall => by
    obtain ⟨hne, hp⟩ := hall rec (List.mem_cons_self _ _)
    obtain ⟨i, hf⟩ := findRecordIdx_isSome_of_hasPair hp
    have hstep : upsertStep store rec = (store.set i rec, true) := by
      unfold upsertStep findRecord
      rw [if_neg hne, hf]
    rw [runUpsert, hstep]
    have hrest : ∀ r ∈ rest, r.orderNumber ≠ "" ∧ hasPair (store.set i rec) r.date r.orderNumber := by
      intro r hr
      refine ⟨(hall r (List.mem_cons_of_mem _ hr)).1, ?_⟩
      have := upsertStep_preserves store rec r.date r.orderNumber
        (hall r (List.mem_cons_of_mem _ hr)).2
      rw [hstep] at this
      exact this
    obtain ⟨hL, hC, hU⟩ := runUpsert_all_updates rest (store.set i rec) hrest
    refine ⟨?_, hC, ?_⟩
    · dsimp only
      rw [hL, List.length_set]
    · dsimp only
      rw [hU, List.length_cons]

/-- C1, amended. For a record set in which every record has a non-empty
order number, the reconciler is idempotent: running it a second time over
the store produced by the first run leaves the record count unchanged,
issues zero creates, and counts every record as an update. (Records with
empty order numbers — which the emptiness filter admits when a customer or
address is present — are re-created on every run and void the count
equality; see the counterexample.) -/
theorem C1_upsert_idempotent_amended (store recs : List RelayRec)
    (h : ∀ r ∈ recs, r.orderNumber ≠ "") :
    (runUpsert (runUpsert store recs).store recs).store.length
      = (runUpsert store recs).store.length ∧
    (runUpsert (runUpsert store recs).store recs).created = 0 ∧
    (runUpsert (runUpsert store recs).store recs).updated = recs.length := by
  apply runUpsert_all_updates
  intro r hr
  exact ⟨h r hr, runUpsert_establishes recs store h r hr⟩

/-- Witness for C1's amended theorem: two runs of the single-record set
with order number "7" — the second run updates, creates nothing, and leaves
one record in the store. -/
theorem C1_witness :
    (runUpsert (runUpsert [] [rec7]).store [rec7]).store.length
      = (runUpsert [] [rec7]).store.length ∧
    (runUpsert (runUpsert [] [rec7]).store [rec7]).created = 0 ∧
    (runUpsert (runUpsert [] [rec7]).store [rec7]).updated = ([rec7] : List RelayRec).length :=
  C1_upsert_idempotent_amended [] [rec7]
    (fun r hr => by rw [List.mem_singleton] at hr; subst hr; decide)

/-- C1, counterexample. A record with an empty order number but a truthy
customer passes the emptiness filter, yet `findRecord` never matches it, so
the second run creates it again: the store grows from one record to two,
refuting the claim's every-record-set count equality. -/
theorem C1_counterexample :
    keepRelay recNoOrder = true ∧
    (runUpsert [] [recNoOrder]).store.length = 1 ∧
    (runUpsert (runUpsert [] [recNoOrder]).store [recNoOrder]).store.length = 2 ∧
    (runUpsert (runUpsert [] [recNoOrder]).store [recNoOrder]).created = 1 ∧
    (runUpsert (runUpsert [] [recNoOrder]).store [recNoOrder]).updated = 0 := by
  refine ⟨rfl, rfl, rfl, rfl, rfl⟩
